import Mathlib

/-!
Shallow embedding of the skeinforge "hop" and "export" tool chain stages
(src/skeinforge_tools/hop.py and src/skeinforge_tools/export.py).

The two stage files are translated faithfully.  Helper routines that the
stages call but that are not part of the given sources (the gcodec,
euclidean and preferences utility modules, and Python builtins such as
str.split, float(), int() and round()) are modelled from the spec; each
such definition carries a doc comment that says so.

Python exceptions (ValueError from float()/int(), IndexError from list
indexing, ZeroDivisionError, AttributeError on None) are modelled with
Option: a result of none means the Python code raises and the stage
aborts.
-/

/-- Whitespace test used by the Python str.split() builtin (modelled from
the spec: lines are whitespace-delimited tokens). -/
def isPySpace (c : Char) : Bool :=
  c = ' ' ∨ c = '\t' ∨ c = '\n' ∨ c = '\r' ∨ c = '\x0b' ∨ c = '\x0c'

/-- Split a character list at every character satisfying p, keeping empty
pieces, as the Python str.split(sep) builtin does (modelled from the spec:
a line is a sequence of single-letter-prefixed tokens separated by
spaces). -/
def splitPred (p : Char → Bool) : List Char → List (List Char)
  | [] => [[]]
  | a :: rest =>
    if p a then [] :: splitPred p rest
    else
      match splitPred p rest with
      | [] => [[a]]
      | w :: ws => (a :: w) :: ws

/-- Python line.split(sep) for a single-character separator: pieces between
separator occurrences, empty pieces kept. -/
def splitOnChar (c : Char) (s : String) : List String :=
  (splitPred (fun a => a = c) s.toList).map String.mk

/-- Python line.split(' ') as used throughout hop.py. -/
def hopSplit (line : String) : List String :=
  splitOnChar ' ' line

/-- Python line.split() with no argument as used in export.py: split on
whitespace runs, dropping empty pieces. -/
def pySplitWS (line : String) : List String :=
  ((splitPred isPySpace line.toList).filter (fun w => w ≠ [])).map String.mk

/-- First word of a gcode line under the hop.py splitting convention. -/
def firstWordOf (line : String) : String :=
  (hopSplit line).headD ""

/-- Index of the first element satisfying p, as Python str.find and the
gcodec index helpers compute it (modelled from the spec). -/
def pyFindIdx {α : Type} (p : α → Bool) : List α → Option ℕ
  | [] => none
  | a :: rest => if p a then some 0 else (pyFindIdx p rest).map (· + 1)

/-!
Rational arithmetic for the model.  The spec's real-valued quantities are
modelled by exact rationals.  The standard library's rational operations
are deliberately irreducible, so the model carries its own normalising
operations built on mkRat; every rational a stage state ever holds is in
normal form, making model states decidably comparable and every
definition evaluable by the kernel.
-/

/-- Sum of two rationals, normalised. -/
def qadd (a b : ℚ) : ℚ :=
  mkRat (a.num * (b.den : ℤ) + b.num * (a.den : ℤ)) (a.den * b.den)

/-- Negation of a rational, normalised. -/
def qneg (a : ℚ) : ℚ :=
  mkRat (-a.num) a.den

/-- Difference of two rationals, normalised. -/
def qsub (a b : ℚ) : ℚ :=
  qadd a (qneg b)

/-- Product of two rationals, normalised. -/
def qmul (a b : ℚ) : ℚ :=
  mkRat (a.num * b.num) (a.den * b.den)

/-- Quotient of two rationals, normalised; division by zero yields zero
and is guarded wherever the Python source would raise
ZeroDivisionError. -/
def qdiv (a b : ℚ) : ℚ :=
  if 0 ≤ b.num then mkRat (a.num * (b.den : ℤ)) (a.den * b.num.toNat)
  else mkRat (-(a.num * (b.den : ℤ))) (a.den * (-b.num).toNat)

/-- Strict order test on rationals by cross multiplication. -/
def qlt (a b : ℚ) : Bool :=
  a.num * (b.den : ℤ) < b.num * (a.den : ℤ)

/-- Nonstrict order test on rationals by cross multiplication. -/
def qle (a b : ℚ) : Bool :=
  a.num * (b.den : ℤ) ≤ b.num * (a.den : ℤ)

/-- Python min() of two values: the first when it is not greater. -/
def qmin (a b : ℚ) : ℚ :=
  if qle a b then a else b

/-- Fuel-driven integer square root search: the largest k at most the
given bound with k * k not exceeding n. -/
def natSqrtGo (n : ℕ) : ℕ → ℕ → ℕ
  | 0, k => k
  | fuel + 1, k => if n < (k + 1) * (k + 1) then k else natSqrtGo n fuel (k + 1)

/-- Integer square root of a natural number. -/
def natSqrt (n : ℕ) : ℕ :=
  natSqrtGo n n 0

/-- Integer square root of an integer, zero on negatives. -/
def intSqrt (z : ℤ) : ℤ :=
  (natSqrt z.toNat : ℤ)

/-- Rational square root in the style of Rat.sqrt: componentwise integer
square roots of the normalised fraction; exact on squares of
rationals. -/
def ratSqrt (q : ℚ) : ℚ :=
  mkRat (intSqrt q.num) (natSqrt q.den)

/-- Numeric value of a list of decimal digit characters. -/
def digitsVal (ds : List Char) : ℕ :=
  ds.foldl (fun n c => 10 * n + (c.toNat - 48)) 0

/-- True when the list is a nonempty run of decimal digits. -/
def allDigits (ds : List Char) : Bool :=
  !ds.isEmpty && ds.all Char.isDigit

/-- Python int(string) builtin (modelled from the spec: integer metadata
values): an optional sign followed by decimal digits; anything else raises
ValueError (none). -/
def parseInt (s : String) : Option ℤ :=
  match s.toList with
  | '+' :: rest => if allDigits rest then some (digitsVal rest : ℤ) else none
  | '-' :: rest => if allDigits rest then some (-(digitsVal rest : ℤ)) else none
  | rest => if allDigits rest then some (digitsVal rest : ℤ) else none

/-- Mantissa part of a Python float literal: digits with an optional single
decimal point, at least one digit in total. -/
def parseMantissa (cs : List Char) : Option ℚ :=
  let intPart := cs.takeWhile Char.isDigit
  let rest := cs.dropWhile Char.isDigit
  match rest with
  | [] => if intPart.isEmpty then none else some (digitsVal intPart : ℚ)
  | '.' :: frac =>
    if frac.all Char.isDigit ∧ (!intPart.isEmpty || !frac.isEmpty) then
      some (mkRat (digitsVal intPart * 10 ^ frac.length + digitsVal frac : ℤ)
        (10 ^ frac.length))
    else none
  | _ => none

/-- Scale a rational by ten to an integer power. -/
def timesTenPow (m : ℚ) (e : ℤ) : ℚ :=
  if 0 ≤ e then qmul m (((10 : ℕ) ^ e.toNat : ℕ) : ℚ)
  else qdiv m (((10 : ℕ) ^ (-e).toNat : ℕ) : ℚ)

/-- Exponent part of a Python float literal: optional sign and digits. -/
def parseExponent (cs : List Char) : Option ℤ :=
  match cs with
  | '+' :: rest => if allDigits rest then some (digitsVal rest : ℤ) else none
  | '-' :: rest => if allDigits rest then some (-(digitsVal rest : ℤ)) else none
  | rest => if allDigits rest then some (digitsVal rest : ℤ) else none

/-- Unsigned part of a Python float literal: a mantissa with an optional
exponent marked by the letter e or E. -/
def parseFloatBody (body : List Char) : Option ℚ :=
  match pyFindIdx (fun c => c = 'e' ∨ c = 'E') body with
  | none => parseMantissa body
  | some i =>
    match parseMantissa (body.take i), parseExponent (body.drop (i + 1)) with
    | some m, some e => some (timesTenPow m e)
    | _, _ => none

/-- Python float(string) builtin (modelled from the spec: real-valued
coordinate and metadata tokens), with exact rational values in place of
binary floating point; an unparseable string raises ValueError (none). -/
def parseFloat (s : String) : Option ℚ :=
  match s.toList with
  | '+' :: rest => parseFloatBody rest
  | '-' :: rest => (parseFloatBody rest).map qneg
  | rest => parseFloatBody rest

/-- Floor of a rational number, computed from the normalised fraction. -/
def ratFloor (q : ℚ) : ℤ :=
  Int.fdiv q.num (q.den : ℤ)

/-- Python 2 round() builtin (modelled from the spec: numeric truncation
rounds): round half away from zero. -/
def roundHalfAwayFromZero (q : ℚ) : ℤ :=
  if q.num < 0 then -ratFloor (qadd (qneg q) (mkRat 1 2))
  else ratFloor (qadd q (mkRat 1 2))

/-- Decimal digit character for a value below ten. -/
def digitChar10 (n : ℕ) : Char :=
  Char.ofNat (48 + n)

/-- Fuel-driven decimal digit expansion of a natural number. -/
def natDigitsAux : ℕ → ℕ → List Char → List Char
  | 0, n, acc => digitChar10 (n % 10) :: acc
  | fuel + 1, n, acc =>
    if n < 10 then digitChar10 n :: acc
    else natDigitsAux fuel (n / 10) (digitChar10 (n % 10) :: acc)

/-- Decimal digit characters of a natural number, most significant first. -/
def natDigits (n : ℕ) : List Char :=
  natDigitsAux n n []

/-- Pad a digit list on the left with zeros up to the given width. -/
def padLeftZeros (k : ℕ) (ds : List Char) : List Char :=
  List.replicate (k - ds.length) '0' ++ ds

/-- Drop trailing zero digits but keep at least one digit, matching how
Python str() renders a float's fractional part. -/
def dropTrailingZerosKeepOne (ds : List Char) : List Char :=
  match (ds.reverse.dropWhile (fun c => c = '0')).reverse with
  | [] => ['0']
  | w => w

/-- Modelled from the spec: euclidean.getRoundedToDecimalPlacesString (the
euclidean module is not under src/).  The spec says truncation rounds a
numeric value to the given number of decimal digits; the reference
behaviour is str(round(number * 10 ** places) / 10 ** places), which this
reproduces over exact rationals for the nonnegative place counts produced
by well-formed pipelines, including the "-0.0" rendering when a negative
value rounds to zero. -/
def getRoundedToDecimalPlacesString (places : ℤ) (q : ℚ) : String :=
  let k := places.toNat
  let n := roundHalfAwayFromZero (qmul q (((10 : ℕ) ^ k : ℕ) : ℚ))
  let sign := if n < 0 ∨ (n = 0 ∧ q.num < 0) then "-" else ""
  let m := n.natAbs
  let ip := m / 10 ^ k
  let fp := m % 10 ^ k
  sign ++ String.mk (natDigits ip) ++ "." ++
    String.mk (dropTrailingZerosKeepOne (padLeftZeros k (natDigits fp)))

/-- Modelled from the spec: gcodec.getTextLines (the gcodec module is not
under src/).  A document is an ordered sequence of text lines; the text is
split at newline characters. -/
def getTextLines (text : String) : List String :=
  splitOnChar '\n' text

/-- Modelled from the spec: gcodec.isProcedureDone (the gcodec module is
not under src/).  A stage's procedure marker is a comment line whose first
word is the procedureDone tag and whose second word is the stage name;
presence is checked by exact stage name. -/
def isProcedureDone (gcodeText : String) (procedure : String) : Bool :=
  if gcodeText = "" then false
  else
    (getTextLines gcodeText).any fun line =>
      ((hopSplit line).headD "" == "(<procedureDone>") &&
        ((hopSplit line).getD 1 "" == procedure)

/-- Three-dimensional point (the Location/Vector primitive of the spec,
gcodec.Vec3; the gcodec module is not under src/). -/
structure Vec3 where
  x : ℚ
  y : ℚ
  z : ℚ
deriving DecidableEq

/-- Scalar multiple of a vector, as Vec3.times. -/
def Vec3.times (v : Vec3) (m : ℚ) : Vec3 :=
  ⟨qmul v.x m, qmul v.y m, qmul v.z m⟩

/-- Componentwise sum of two vectors, as Vec3.plus. -/
def Vec3.plus (v w : Vec3) : Vec3 :=
  ⟨qadd v.x w.x, qadd v.y w.y, qadd v.z w.z⟩

/-- Squared Euclidean distance between two points. -/
def Vec3.distanceSquared (v w : Vec3) : ℚ :=
  qadd (qadd (qmul (qsub v.x w.x) (qsub v.x w.x)) (qmul (qsub v.y w.y) (qsub v.y w.y)))
    (qmul (qsub v.z w.z) (qsub v.z w.z))

/-- Modelled from the spec: Euclidean distance between two Locations (the
euclidean/gcodec modules are not under src/).  Exact rational square roots
are used; every concrete use in this development has a perfect-square
squared distance, where ratSqrt is exact. -/
def Vec3.distance (v w : Vec3) : ℚ :=
  ratSqrt (Vec3.distanceSquared v w)

/-- Modelled from the spec: gcodec.indexOfStartingWithSecond (the gcodec
module is not under src/): index of the first word, starting from the
second, that begins with the given letter. -/
def indexOfStartingWithSecond (letter : String) (splitLine : List String) : Option ℕ :=
  (pyFindIdx (fun w => w.take 1 = letter) (splitLine.drop 1)).map (· + 1)

/-- Modelled from the spec: the numeric value after an axis letter in a
split line, carrying the old value forward when the axis is absent and
skipping a malformed token (the Malformed-line taxonomy of the spec says an
unparseable numeric token must not abort the hop for the line). -/
def axisValue (letter : String) (splitLine : List String) (old : ℚ) : ℚ :=
  match indexOfStartingWithSecond letter splitLine with
  | none => old
  | some i =>
    match parseFloat ((splitLine.getD i "").drop 1) with
    | none => old
    | some v => v

/-- Modelled from the spec: gcodec.getLocationFromSplitLine (the gcodec
module is not under src/).  A location update carries forward any axis not
present in the line's parameters; a missing old location is the origin. -/
def getLocationFromSplitLine (oldLocation : Option Vec3) (splitLine : List String) : Vec3 :=
  let old := oldLocation.getD ⟨0, 0, 0⟩
  { x := axisValue "X" splitLine old.x
    y := axisValue "Y" splitLine old.y
    z := axisValue "Z" splitLine old.z }

/-- Accumulated cStringIO output: every added line is written followed by a
newline; getvalue concatenates. -/
def outputGetValue (ls : List String) : String :=
  String.join (ls.map (fun l => l ++ "\n"))

/-- Preferences of the hop stage (hop.py HopPreferences), restricted to the
values the algorithm reads; dialog and file-selection preferences are
external collaborators. -/
structure HopPreferences where
  activateHop : Bool := true
  hopOverExtrusionHeight : ℚ := 1
  minimumHopAngle : ℚ := 20
deriving DecidableEq

/-- State of hop.py's HopSkein, with the fields set by the constructor.
The output buffer is the list of added lines.  The minimumSlope field
stands for math.tan(math.radians(minimumHopAngle)) assigned in parseGcode;
the tangent is transcendental, so the model carries the slope as an
arbitrary rational parameter and every theorem holds for all its values. -/
structure HopSkein where
  bridgeExtrusionWidthOverSolid : ℚ := 1
  decimalPlacesCarried : ℤ := 3
  extruderActive : Bool := false
  feedrateString : String := ""
  hopHeight : ℚ := mkRat 2 5
  layerHopDistance : ℚ := mkRat 2 5
  layerHopHeight : ℚ := mkRat 2 5
  justDeactivated : Bool := false
  lineIndex : ℕ := 0
  lines : List String := []
  oldLocation : Option Vec3 := none
  output : List String := []
  minimumSlope : ℚ := 0
deriving DecidableEq

/-- HopSkein.addLine: add a line of text and a newline to the output. -/
def HopSkein.addLine (st : HopSkein) (line : String) : HopSkein :=
  { st with output := st.output ++ [line] }

/-- HopSkein.getRounded: the number rounded to the number of carried
decimal places, as a string. -/
def HopSkein.getRounded (st : HopSkein) (number : ℚ) : String :=
  getRoundedToDecimalPlacesString st.decimalPlacesCarried number

/-- HopSkein.getMovementLineWithHop: linear movement line for a location
with the layer hop height added to z and the remembered feedrate word
appended when one has been seen. -/
def HopSkein.getMovementLineWithHop (st : HopSkein) (location : Vec3) : String :=
  let movementLine :=
    "G1 X" ++ st.getRounded location.x ++ " Y" ++ st.getRounded location.y ++
      " Z" ++ st.getRounded (qadd location.z st.layerHopHeight)
  if st.feedrateString ≠ "" then movementLine ++ " " ++ st.feedrateString
  else movementLine

/-- First three lines of HopSkein.getHopLine: remember the feedrate word of
the line when one is present. -/
def HopSkein.updateFeedrateFromLine (st : HopSkein) (splitLine : List String) : HopSkein :=
  match indexOfStartingWithSecond "F" splitLine with
  | some indexOfF => { st with feedrateString := splitLine.getD indexOfF "" }
  | none => st

/-- Loop body of HopSkein.isNextTravel over the lines after the current
one: true at the first linear move word, false at the first extruder
activation word or at the end. -/
def isNextTravelAux : List String → Bool
  | [] => false
  | line :: rest =>
    let firstWord := (hopSplit line).headD ""
    if firstWord = "G1" then true
    else if firstWord = "M101" then false
    else isNextTravelAux rest

/-- HopSkein.isNextTravel: determine if there is another linear travel
before the thread ends, scanning the lines after lineIndex. -/
def HopSkein.isNextTravel (st : HopSkein) : Bool :=
  isNextTravelAux (st.lines.drop (st.lineIndex + 1))

/-- HopSkein.getHopLine: the hopped gcode line, together with the updated
state (feedrate memory, and the two ramp lines added to the output in the
just-deactivated case).  none models the Python exceptions of that body:
AttributeError when oldLocation is None in the just-deactivated case and
ZeroDivisionError when the travel distance is zero. -/
def HopSkein.getHopLine (st : HopSkein) (line : String) : Option (HopSkein × String) :=
  let splitLine := hopSplit line
  let stF := st.updateFeedrateFromLine splitLine
  if stF.extruderActive then some (stF, line)
  else
    let location := getLocationFromSplitLine stF.oldLocation splitLine
    if stF.isNextTravel then some (stF, stF.getMovementLineWithHop location)
    else if stF.justDeactivated then
      match stF.oldLocation with
      | none => none
      | some old =>
        let distance := Vec3.distance location old
        if distance = 0 then none
        else
          let alongRatio := qmin (mkRat 41666666 100000000) (qdiv stF.layerHopDistance distance)
          let oneMinusAlong := qsub 1 alongRatio
          let closeLocation := (old.times oneMinusAlong).plus (location.times alongRatio)
          let st1 := stF.addLine (stF.getMovementLineWithHop closeLocation)
          let farLocation := (old.times alongRatio).plus (location.times oneMinusAlong)
          let st2 := st1.addLine (st1.getMovementLineWithHop farLocation)
          some (st2, line)
    else some (stF, line)

/-- HopSkein.parseLine: parse a gcode line and add it to the output.  none
models a propagated Python exception (from getHopLine, or the
ZeroDivisionError when a layer marker divides by a zero minimum slope). -/
def HopSkein.parseLine (st : HopSkein) (line : String) : Option HopSkein :=
  let splitLine := hopSplit line
  if splitLine.length < 1 ∨ line.length < 1 then some st
  else
    let firstWord := splitLine.headD ""
    let g1step : Option (HopSkein × String) :=
      if firstWord = "G1" then
        (st.getHopLine line).map fun r =>
          ({ r.1 with
              oldLocation := some (getLocationFromSplitLine r.1.oldLocation splitLine)
              justDeactivated := false }, r.2)
      else some (st, line)
    match g1step with
    | none => none
    | some (st1, line1) =>
      let st2 := if firstWord = "M101" then { st1 with extruderActive := true } else st1
      if firstWord = "M103" then
        some (HopSkein.addLine { st2 with extruderActive := false, justDeactivated := true } line1)
      else if firstWord = "(<layerStart>" then
        if st2.minimumSlope = 0 then none
        else
          some (HopSkein.addLine
            { st2 with
                layerHopHeight := st2.hopHeight
                layerHopDistance := qdiv st2.hopHeight st2.minimumSlope } line1)
      else if firstWord = "(<bridgeLayer>" then
        if st2.minimumSlope = 0 then none
        else
          some (HopSkein.addLine
            { st2 with
                layerHopHeight := qmul st2.hopHeight st2.bridgeExtrusionWidthOverSolid
                layerHopDistance :=
                  qdiv (qmul st2.hopHeight st2.bridgeExtrusionWidthOverSolid)
                    st2.minimumSlope } line1)
      else some (HopSkein.addLine st2 line1)

/-- Loop of HopSkein.parseInitialization: Python iterates
"for self.lineIndex in range(len(self.lines))", so the loop variable is
stored in the state at each step and keeps its last value afterwards.
Metadata lines are parsed with int()/float(), whose failures (and the
IndexError when the value word is missing) propagate as none; at the
extrusion start line the hop procedureDone marker is added and the pass
returns. -/
def parseInitializationAux (hopPreferences : HopPreferences) :
    List String → ℕ → HopSkein → Option HopSkein
  | [], _, st => some st
  | line :: rest, i, st =>
    let st := { st with lineIndex := i }
    let splitLine := hopSplit line
    let firstWord := splitLine.headD ""
    if firstWord = "(<extrusionHeight>" then
      match splitLine.get? 1 with
      | none => none
      | some w =>
        match parseFloat w with
        | none => none
        | some extrusionHeight =>
          parseInitializationAux hopPreferences rest (i + 1)
            (HopSkein.addLine
              { st with
                  hopHeight := qmul hopPreferences.hopOverExtrusionHeight extrusionHeight }
              line)
    else if firstWord = "(<bridgeExtrusionWidthOverSolid>" then
      match splitLine.get? 1 with
      | none => none
      | some w =>
        match parseFloat w with
        | none => none
        | some v =>
          parseInitializationAux hopPreferences rest (i + 1)
            (HopSkein.addLine { st with bridgeExtrusionWidthOverSolid := v } line)
    else if firstWord = "(<decimalPlacesCarried>" then
      match splitLine.get? 1 with
      | none => none
      | some w =>
        match parseInt w with
        | none => none
        | some v =>
          parseInitializationAux hopPreferences rest (i + 1)
            (HopSkein.addLine { st with decimalPlacesCarried := v } line)
    else if firstWord = "(<extrusionStart>" then
      some (st.addLine "(<procedureDone> hop )")
    else
      parseInitializationAux hopPreferences rest (i + 1) (st.addLine line)

/-- Main loop of HopSkein.parseGcode over the lines from the current line
index on, continuing from where the initialization pass left the index.
The first argument is the suffix of the stored lines starting at position
i; the lines list itself is immutable throughout a run. -/
def parseGcodeLoop : List String → ℕ → HopSkein → Option HopSkein
  | [], _, st => some st
  | line :: rest, i, st =>
    match HopSkein.parseLine { st with lineIndex := i } line with
    | none => none
    | some st1 => parseGcodeLoop rest (i + 1) st1

/-- HopSkein.parseGcode: store the lines and the minimum slope, run the
initialization pass, then run the main pass from the line index it left.
The minimumSlope argument stands for the transcendental
math.tan(math.radians(hopPreferences.minimumHopAngle)). -/
def HopSkein.parseGcode (hopPreferences : HopPreferences) (minimumSlope : ℚ)
    (gcodeText : String) : Option HopSkein :=
  let lines := getTextLines gcodeText
  let st : HopSkein := { lines := lines, minimumSlope := minimumSlope }
  match parseInitializationAux hopPreferences lines 0 st with
  | none => none
  | some st1 => parseGcodeLoop (lines.drop st1.lineIndex) st1.lineIndex st1

/-- getHopGcode: hop a gcode linear move text.  Empty text returns empty;
text already carrying the hop procedure marker is returned unchanged
before any parsing; a deactivated preference returns the text unchanged;
otherwise the skein runs (none models a propagated Python exception).
The minimumSlope argument stands for the transcendental
math.tan(math.radians(hopPreferences.minimumHopAngle)) computed inside
parseGcode. -/
def getHopGcode (hopPreferences : HopPreferences) (minimumSlope : ℚ)
    (gcodeText : String) : Option String :=
  if gcodeText = "" then some ""
  else if isProcedureDone gcodeText "hop" then some gcodeText
  else if hopPreferences.activateHop = false then some gcodeText
  else
    (HopSkein.parseGcode hopPreferences minimumSlope gcodeText).map fun st =>
      outputGetValue st.output

/-- Preferences of the export stage (export.py ExportPreferences),
restricted to the values the algorithm reads; plugin selection, dialog and
file preferences are external collaborators. -/
structure ExportPreferences where
  activateExport : Bool := true
  deleteComments : Bool := true
  fileExtension : String := "gcode"
  alsoSendOutputTo : String := ""
deriving DecidableEq

/-- State of export.py's ExportSkein: the exported decimal place count and
the output buffer. -/
structure ExportSkein where
  decimalPlacesExported : ℤ := 2
  output : List String := []
deriving DecidableEq

/-- ExportSkein.addLine: add a line of text and a newline to the output,
ignoring an empty line. -/
def ExportSkein.addLine (st : ExportSkein) (line : String) : ExportSkein :=
  if line ≠ "" then { st with output := st.output ++ [line] } else st

/-- Character positions used by ExportSkein.getLineWithTruncatedNumber:
the index of the first occurrence of the parameter character
(line.find(character)) and the index of the first space at or after it
(line.find(' ', indexOfCharacter), or the line length when absent). -/
def truncationIndices (character : Char) (cs : List Char) : Option (ℕ × ℕ) :=
  match pyFindIdx (fun a => a = character) cs with
  | none => none
  | some indexOfCharacter =>
    let indexOfNumberEnd :=
      match pyFindIdx (fun a => a = ' ') (cs.drop indexOfCharacter) with
      | some j => indexOfCharacter + j
      | none => cs.length
    some (indexOfCharacter, indexOfNumberEnd)

/-- The number substring ExportSkein.getLineWithTruncatedNumber extracts
after the parameter character (empty when the character is absent). -/
def numberStringAt (character : Char) (line : String) : String :=
  match truncationIndices character line.toList with
  | none => ""
  | some (indexOfCharacter, indexOfNumberEnd) =>
    String.mk ((line.toList.take indexOfNumberEnd).drop (indexOfCharacter + 1))

/-- ExportSkein.getLineWithTruncatedNumber: the line with the number after
the character truncated to the exported decimal place count.  A missing
character or an empty number substring leaves the line unchanged; a
nonempty unparseable number substring raises ValueError from float()
(none). -/
def ExportSkein.getLineWithTruncatedNumber (st : ExportSkein) (character : Char)
    (line : String) : Option String :=
  let cs := line.toList
  match truncationIndices character cs with
  | none => some line
  | some (indexOfCharacter, indexOfNumberEnd) =>
    let indexOfNumberStart := indexOfCharacter + 1
    let numberString := String.mk ((cs.take indexOfNumberEnd).drop indexOfNumberStart)
    if numberString = "" then some line
    else
      match parseFloat numberString with
      | none => none
      | some q =>
        let roundedNumberString := getRoundedToDecimalPlacesString st.decimalPlacesExported q
        some (String.mk (cs.take indexOfNumberStart) ++ roundedNumberString ++
          String.mk (cs.drop indexOfNumberEnd))

/-- ExportSkein.parseLine: parse a gcode line.  Empty split lines return
without output; a decimalPlacesCarried metadata line updates the exported
precision (int() failure and a missing value word raise, none); a comment
line is dropped when deleteComments is enabled; the extruder
initialization end line adds the export procedureDone marker; non-motion
lines pass through; motion lines have the X, Y, Z, I, J, R numbers
truncated in that order. -/
def ExportSkein.parseLine (exportPreferences : ExportPreferences) (st : ExportSkein)
    (line : String) : Option ExportSkein :=
  let splitLine := pySplitWS line
  if splitLine.length < 1 then some st
  else
    let firstWord := splitLine.headD ""
    let step1 : Option ExportSkein :=
      if firstWord = "(<decimalPlacesCarried>" then
        match splitLine.get? 1 with
        | none => none
        | some w =>
          match parseInt w with
          | none => none
          | some n => some { st with decimalPlacesExported := max 1 (n - 1) }
      else some st
    match step1 with
    | none => none
    | some st1 =>
      if firstWord.take 1 = "(" ∧ exportPreferences.deleteComments then some st1
      else
        let st2 :=
          if firstWord = "(</extruderInitialization>)" then
            st1.addLine "(<procedureDone> export </procedureDone>)"
          else st1
        if firstWord ≠ "G1" ∧ firstWord ≠ "G2" ∧ firstWord ≠ "G3" then
          some (st2.addLine line)
        else
          match st2.getLineWithTruncatedNumber 'X' line with
          | none => none
          | some lx =>
            match st2.getLineWithTruncatedNumber 'Y' lx with
            | none => none
            | some ly =>
              match st2.getLineWithTruncatedNumber 'Z' ly with
              | none => none
              | some lz =>
                match st2.getLineWithTruncatedNumber 'I' lz with
                | none => none
                | some li =>
                  match st2.getLineWithTruncatedNumber 'J' li with
                  | none => none
                  | some lj =>
                    match st2.getLineWithTruncatedNumber 'R' lj with
                    | none => none
                    | some lr => some (st2.addLine lr)

/-- ExportSkein.parseGcode: parse every line of the text in order. -/
def ExportSkein.parseGcode (exportPreferences : ExportPreferences) (st : ExportSkein)
    (gcodeText : String) : Option ExportSkein :=
  (getTextLines gcodeText).foldlM (fun s l => ExportSkein.parseLine exportPreferences s l) st

/-- getGcode: export a gcode linear move text.  Empty text returns empty;
text already carrying the export procedure marker is returned unchanged
before any parsing; a deactivated preference returns the text unchanged;
otherwise the skein runs (none models a propagated Python exception). -/
def getGcode (exportPreferences : ExportPreferences) (gcodeText : String) : Option String :=
  if gcodeText = "" then some ""
  else if isProcedureDone gcodeText "export" then some gcodeText
  else if exportPreferences.activateExport = false then some gcodeText
  else
    (ExportSkein.parseGcode exportPreferences {} gcodeText).map fun st =>
      outputGetValue st.output

/-- Spec-side reading of the lookahead rule for the remaining lines: every
linear move in the list is preceded by some extruder activation, that is,
no G1 occurs before the next M101 or the end of the stream. -/
def noTravelAheadList (ls : List String) : Prop :=
  ∀ j, j < ls.length → firstWordOf (ls.getD j "") = "G1" →
    ∃ k, k < j ∧ firstWordOf (ls.getD k "") = "M101"

instance (ls : List String) : Decidable (noTravelAheadList ls) := by
  unfold noTravelAheadList
  infer_instance

/-- The lookahead condition of the spec applied to a skein state: no other
linear move occurs among the remaining lines before the next extruder
activation or the end of the stream. -/
def HopSkein.noTravelAhead (st : HopSkein) : Prop :=
  noTravelAheadList (st.lines.drop (st.lineIndex + 1))

instance (st : HopSkein) : Decidable st.noTravelAhead := by
  unfold HopSkein.noTravelAhead
  infer_instance

/-! ### Helper lemmas -/

theorem splitPred_ne_nil (p : Char → Bool) (cs : List Char) : splitPred p cs ≠ [] := by
  cases cs with
  | nil => simp [splitPred]
  | cons a rest =>
    unfold splitPred
    by_cases h : p a
    · simp [h]
    · simp only [h, if_neg, Bool.false_eq_true, if_false]
      cases splitPred p rest <;> simp

theorem hopSplit_length_pos (line : String) : 1 ≤ (hopSplit line).length := by
  unfold hopSplit splitOnChar
  have h := splitPred_ne_nil (fun a => a = ' ') line.toList
  cases hs : splitPred (fun a => a = ' ') line.toList with
  | nil => exact absurd hs h
  | cons w ws => simp

theorem one_le_length_of_ne_empty (s : String) (h : s ≠ "") : 1 ≤ s.length := by
  cases s with
  | mk data =>
    cases data with
    | nil => exact absurd (by decide) h
    | cons a l => simp [String.length]

theorem hop_parseLine_guard_false (line : String) (h : line ≠ "") :
    ¬((hopSplit line).length < 1 ∨ line.length < 1) := by
  push_neg
  exact ⟨hopSplit_length_pos line, one_le_length_of_ne_empty line h⟩

/-! ### Claim C1: idempotent short-circuit on the procedure marker -/

/-- Claim C1: for every text already containing a stage's own
procedure-done marker, running that stage on it returns it unchanged:
getHopGcode returns the text when the hop marker is present and getGcode
returns the text when the export marker is present, for every preference
record and slope, so before any parsing can depend on them. -/
theorem claim_C1 (hopText exportText : String) (p : HopPreferences) (s : ℚ)
    (ep : ExportPreferences)
    (hHop : isProcedureDone hopText "hop" = true)
    (hExp : isProcedureDone exportText "export" = true) :
    getHopGcode p s hopText = some hopText ∧ getGcode ep exportText = some exportText := by
  constructor
  · unfold getHopGcode
    by_cases h : hopText = ""
    · simp [h]
    · simp [h, hHop]
  · unfold getGcode
    by_cases h : exportText = ""
    · simp [h]
    · simp [h, hExp]

/-- Witness for claim C1 at concrete marker-bearing texts. -/
theorem claim_C1_witness :
    isProcedureDone "(<procedureDone> hop )" "hop" = true ∧
    isProcedureDone "(<procedureDone> export </procedureDone>)" "export" = true ∧
    getHopGcode {} 1 "(<procedureDone> hop )" = some "(<procedureDone> hop )" ∧
    getGcode {} "(<procedureDone> export </procedureDone>)" =
      some "(<procedureDone> export </procedureDone>)" := by
  have h := claim_C1 "(<procedureDone> hop )" "(<procedureDone> export </procedureDone>)"
    {} 1 {} (by decide) (by decide)
  exact ⟨by decide, by decide, h.1, h.2⟩

/-! ### Claim C2: comment deletion versus the procedure marker emission -/

/-- Claim C2 (code bug evidence): with deleteComments enabled, the export
engine drops the extruder-initialization-end line without emitting the
export procedure-done marker, because the comment-deletion return is
checked before the marker-emission branch; the claim (and the chain
protocol whose idempotency check in getGcode looks for that marker) says
the marker is still emitted.  With deleteComments disabled the marker
branch is reachable, confirming the intended emission exists in the code
but is dead under the default preference. -/
theorem claim_C2 :
    ExportSkein.parseLine { deleteComments := true } {} "(</extruderInitialization>)" =
      some {} ∧
    ExportSkein.parseLine { deleteComments := false } {} "(</extruderInitialization>)" =
      some { output := ["(<procedureDone> export </procedureDone>)",
                        "(</extruderInitialization>)"] } := by
  decide

/-! ### Claim C7: malformed numeric tokens -/

/-- Counterexample to claim C7: the export stage does abort on an
unparseable numeric token.  On the line G1 Xfoo the float() call inside
getLineWithTruncatedNumber raises ValueError, which nothing catches, so
the whole stage aborts (none) instead of passing the line through. -/
theorem claim_C7_counterexample : getGcode {} "G1 Xfoo" = none := by decide

/-- Claim C7 as amended: a missing parameter letter or an empty numeric
token after it skips truncation and passes the line through unchanged, but
a nonempty unparseable numeric token makes getLineWithTruncatedNumber
raise (none), aborting the stage. -/
theorem claim_C7 (st : ExportSkein) (c : Char) (line : String) :
    (numberStringAt c line = "" →
      ExportSkein.getLineWithTruncatedNumber st c line = some line) ∧
    (numberStringAt c line ≠ "" → parseFloat (numberStringAt c line) = none →
      ExportSkein.getLineWithTruncatedNumber st c line = none) := by
  cases h : truncationIndices c line.data with
  | none =>
    constructor
    · intro _
      simp [ExportSkein.getLineWithTruncatedNumber, h]
    · intro hns _
      exact absurd (by simp [numberStringAt, h]) hns
  | some pr =>
    obtain ⟨i, e⟩ := pr
    have hnsEq : numberStringAt c line = String.mk ((line.data.take e).drop (i + 1)) := by
      simp [numberStringAt, h]
    constructor
    · intro hns
      rw [hnsEq] at hns
      simp [ExportSkein.getLineWithTruncatedNumber, h, hns]
    · intro hns hpf
      rw [hnsEq] at hns hpf
      simp [ExportSkein.getLineWithTruncatedNumber, h, hns, hpf]

/-- Witness for claim C7: the letter X followed by the unparseable token
foo aborts; a line without the letter passes through. -/
theorem claim_C7_witness :
    numberStringAt 'X' "G1 Xfoo" = "foo" ∧
    ExportSkein.getLineWithTruncatedNumber {} 'X' "G1 Xfoo" = none ∧
    numberStringAt 'X' "G1 Y2" = "" ∧
    ExportSkein.getLineWithTruncatedNumber {} 'X' "G1 Y2" = some "G1 Y2" := by
  refine ⟨by decide, ?_, by decide, ?_⟩
  · exact (claim_C7 {} 'X' "G1 Xfoo").2 (by decide) (by decide)
  · exact (claim_C7 {} 'X' "G1 Y2").1 (by decide)

/-! ### Claim C10: blank lines -/

theorem splitPred_all_sep {p : Char → Bool} :
    ∀ cs : List Char, (∀ c ∈ cs, p c = true) → ∀ w ∈ splitPred p cs, w = [] := by
  intro cs
  induction cs with
  | nil =>
    intro _ w hw
    simp [splitPred] at hw
    exact hw
  | cons a rest ih =>
    intro hall w hw
    have ha : p a = true := hall a (by simp)
    simp only [splitPred, ha, if_true] at hw
    rcases List.mem_cons.mp hw with h1 | h1
    · exact h1
    · exact ih (fun c hc => hall c (by simp [hc])) w h1

theorem pySplitWS_eq_nil_of_all_space (line : String)
    (h : ∀ c ∈ line.toList, isPySpace c = true) : pySplitWS line = [] := by
  unfold pySplitWS
  have : (splitPred isPySpace line.toList).filter (fun w => w ≠ []) = [] := by
    rw [List.filter_eq_nil_iff]
    intro w hw
    simp [splitPred_all_sep line.toList h w hw]
  rw [this]
  rfl

theorem hop_parseLine_empty (st : HopSkein) : HopSkein.parseLine st "" = some st := by
  unfold HopSkein.parseLine
  rw [if_pos]
  right
  decide

/-- Counterexample to claim C10: the hop engine does not omit every empty
input line.  The initialization pass adds every line before the extrusion
start marker, empty or not, so the empty first line of this text survives
into the output; only the main pass drops empty lines. -/
theorem claim_C10_counterexample :
    (HopSkein.parseGcode {} 1 "\nx").map HopSkein.output = some ["", "x", "x"] := by
  decide

/-- Claim C10 as amended: the export engine omits every line that is empty
or consists only of whitespace, regardless of the deleteComments setting;
the hop engine's per-line parser (the main pass) omits every empty line,
while its initialization pass passes them through. -/
theorem claim_C10 (prefs : ExportPreferences) (st : ExportSkein) (line : String)
    (stH : HopSkein) (hws : ∀ c ∈ line.toList, isPySpace c = true) :
    ExportSkein.parseLine prefs st line = some st ∧
    HopSkein.parseLine stH "" = some stH := by
  constructor
  · unfold ExportSkein.parseLine
    rw [pySplitWS_eq_nil_of_all_space line hws]
    simp
  · exact hop_parseLine_empty stH

/-- Witness for claim C10 at a whitespace-only line and the empty line. -/
theorem claim_C10_witness :
    ExportSkein.parseLine {} {} " \t" = some {} ∧
    HopSkein.parseLine {} "" = some {} := by
  exact claim_C10 {} {} " \t" {} (by decide)

/-! ### Claim C3: the lookahead rule -/

theorem updateFeedrate_extruderActive (st : HopSkein) (sl : List String) :
    (st.updateFeedrateFromLine sl).extruderActive = st.extruderActive := by
  unfold HopSkein.updateFeedrateFromLine
  cases indexOfStartingWithSecond "F" sl <;> rfl

theorem updateFeedrate_justDeactivated (st : HopSkein) (sl : List String) :
    (st.updateFeedrateFromLine sl).justDeactivated = st.justDeactivated := by
  unfold HopSkein.updateFeedrateFromLine
  cases indexOfStartingWithSecond "F" sl <;> rfl

theorem updateFeedrate_oldLocation (st : HopSkein) (sl : List String) :
    (st.updateFeedrateFromLine sl).oldLocation = st.oldLocation := by
  unfold HopSkein.updateFeedrateFromLine
  cases indexOfStartingWithSecond "F" sl <;> rfl

theorem updateFeedrate_lines (st : HopSkein) (sl : List String) :
    (st.updateFeedrateFromLine sl).lines = st.lines := by
  unfold HopSkein.updateFeedrateFromLine
  cases indexOfStartingWithSecond "F" sl <;> rfl

theorem updateFeedrate_lineIndex (st : HopSkein) (sl : List String) :
    (st.updateFeedrateFromLine sl).lineIndex = st.lineIndex := by
  unfold HopSkein.updateFeedrateFromLine
  cases indexOfStartingWithSecond "F" sl <;> rfl

theorem updateFeedrate_output (st : HopSkein) (sl : List String) :
    (st.updateFeedrateFromLine sl).output = st.output := by
  unfold HopSkein.updateFeedrateFromLine
  cases indexOfStartingWithSecond "F" sl <;> rfl

theorem updateFeedrate_isNextTravel (st : HopSkein) (sl : List String) :
    (st.updateFeedrateFromLine sl).isNextTravel = st.isNextTravel := by
  unfold HopSkein.isNextTravel
  rw [updateFeedrate_lines, updateFeedrate_lineIndex]

theorem isNextTravelAux_eq_false_iff :
    ∀ ls : List String, isNextTravelAux ls = false ↔ noTravelAheadList ls := by
  intro ls
  induction ls with
  | nil =>
    simp [isNextTravelAux, noTravelAheadList]
  | cons l rest ih =>
    have hshape : isNextTravelAux (l :: rest) =
        (if firstWordOf l = "G1" then true
         else if firstWordOf l = "M101" then false else isNextTravelAux rest) := rfl
    by_cases hG : firstWordOf l = "G1"
    · rw [hshape, if_pos hG]
      simp only [Bool.true_eq_false, false_iff]
      intro h
      obtain ⟨k, hk, _⟩ := h 0 (by simp) (by simpa using hG)
      omega
    · by_cases hM : firstWordOf l = "M101"
      · rw [hshape, if_neg hG, if_pos hM]
        simp only [true_iff]
        intro j hj hfw
        cases j with
        | zero => exact absurd (by simpa using hfw) hG
        | succ j' => exact ⟨0, by omega, by simpa using hM⟩
      · rw [hshape, if_neg hG, if_neg hM, ih]
        constructor
        · intro h j hj hfw
          cases j with
          | zero => exact absurd (by simpa using hfw) hG
          | succ j' =>
            obtain ⟨k, hk, hkM⟩ := h j' (by simpa using hj) (by simpa using hfw)
            exact ⟨k + 1, by omega, by simpa using hkM⟩
        · intro h j hj hfw
          obtain ⟨k, hk, hkM⟩ := h (j + 1) (by simpa using hj) (by simpa using hfw)
          cases k with
          | zero => exact absurd (by simpa using hkM) hM
          | succ k' => exact ⟨k', by omega, by simpa using hkM⟩

/-- Claim C3: processing a linear-move line while the extruder is
inactive, the engine decides the hop by the forward scan isNextTravel over
the remaining lines; when no other G1 occurs before the next M101 or the
end of the stream, the scan reports false and the line itself is returned
unchanged (its Z is not elevated), and when additionally justDeactivated
is off nothing is added to the output around it. -/
theorem claim_C3 (st : HopSkein) (line : String)
    (hA : st.extruderActive = false) (hC : st.noTravelAhead) :
    HopSkein.isNextTravel st = false ∧
    Option.all (fun r => r.2 == line) (st.getHopLine line) = true ∧
    (st.justDeactivated = false →
      Option.all (fun r => r.1.output == st.output) (st.getHopLine line) = true) := by
  have hNT : HopSkein.isNextTravel st = false :=
    (isNextTravelAux_eq_false_iff _).mpr hC
  have hFA : (st.updateFeedrateFromLine (hopSplit line)).extruderActive = false := by
    rw [updateFeedrate_extruderActive]; exact hA
  have hFN : (st.updateFeedrateFromLine (hopSplit line)).isNextTravel = false := by
    rw [updateFeedrate_isNextTravel]; exact hNT
  refine ⟨hNT, ?_, ?_⟩
  · unfold HopSkein.getHopLine
    simp only [hFA, hFN, Bool.false_eq_true, if_false]
    by_cases hJD : (st.updateFeedrateFromLine (hopSplit line)).justDeactivated
    · simp only [hJD, if_true]
      cases (st.updateFeedrateFromLine (hopSplit line)).oldLocation with
      | none => rfl
      | some old =>
        by_cases hz :
            Vec3.distance (getLocationFromSplitLine (some old) (hopSplit line)) old = 0
        · simp [hz]
        · simp [hz]
    · simp [hJD]
  · intro hJ
    have hFJ : (st.updateFeedrateFromLine (hopSplit line)).justDeactivated = false := by
      rw [updateFeedrate_justDeactivated]; exact hJ
    unfold HopSkein.getHopLine
    simp only [hFA, hFN, hFJ, Bool.false_eq_true, if_false]
    simp [updateFeedrate_output]

/-- Witness for claim C3: a travel line whose only following lines carry
no further travel before deactivation markers end the stream. -/
theorem claim_C3_witness :
    HopSkein.isNextTravel
      { extruderActive := false, lines := ["G1 X1 Y2 Z3", "M103"], lineIndex := 0 } = false ∧
    Option.all (fun r => r.2 == "G1 X1 Y2 Z3")
      (HopSkein.getHopLine
        { extruderActive := false, lines := ["G1 X1 Y2 Z3", "M103"], lineIndex := 0 }
        "G1 X1 Y2 Z3") = true ∧
    Option.all (fun r => r.1.output == ([] : List String))
      (HopSkein.getHopLine
        { extruderActive := false, lines := ["G1 X1 Y2 Z3", "M103"], lineIndex := 0 }
        "G1 X1 Y2 Z3") = true := by
  have h := claim_C3
    { extruderActive := false, lines := ["G1 X1 Y2 Z3", "M103"], lineIndex := 0 }
    "G1 X1 Y2 Z3" rfl (by decide)
  exact ⟨h.1, h.2.1, h.2.2 rfl⟩

/-! ### Claim C6: lines processed while the extruder is active -/

theorem hop_getHopLine_passthrough (st : HopSkein) (line : String)
    (hcase : st.extruderActive = true ∨
      (st.justDeactivated = false ∧ st.isNextTravel = false)) :
    st.getHopLine line = some (st.updateFeedrateFromLine (hopSplit line), line) := by
  unfold HopSkein.getHopLine
  by_cases hact : (st.updateFeedrateFromLine (hopSplit line)).extruderActive
  · simp [hact]
  · rcases hcase with h | ⟨hjd, hnt⟩
    · exact absurd (by rw [updateFeedrate_extruderActive]; exact h) hact
    · have hFN : (st.updateFeedrateFromLine (hopSplit line)).isNextTravel = false := by
        rw [updateFeedrate_isNextTravel]; exact hnt
      have hFJ : (st.updateFeedrateFromLine (hopSplit line)).justDeactivated = false := by
        rw [updateFeedrate_justDeactivated]; exact hjd
      simp [hact, hFN, hFJ]

theorem hop_parseLine_passthrough (st st' : HopSkein) (line : String)
    (hline : line ≠ "")
    (hcase : st.extruderActive = true ∨
      (st.justDeactivated = false ∧ st.isNextTravel = false))
    (hrun : HopSkein.parseLine st line = some st') :
    st'.output = st.output ++ [line] := by
  have hguard := hop_parseLine_guard_false line hline
  have hHop := hop_getHopLine_passthrough st line hcase
  simp only [HopSkein.parseLine] at hrun
  rw [if_neg hguard] at hrun
  by_cases hfw : (hopSplit line).headD "" = "G1"
  · simp only [hfw, if_pos rfl, hHop, Option.map_some] at hrun
    have : ¬("G1" = "M103") := by decide
    simp only [if_pos rfl, this, if_false] at hrun
    have h2 : ¬("G1" = "(<layerStart>") := by decide
    have h3 : ¬("G1" = "(<bridgeLayer>") := by decide
    have h4 : ¬("G1" = "M101") := by decide
    simp only [h2, h3, h4, if_false, if_neg] at hrun
    cases hrun
    simp [HopSkein.addLine, updateFeedrate_output]
  · simp only [hfw, if_neg, if_false] at hrun
    by_cases h103 : (hopSplit line).headD "" = "M103"
    · simp only [h103, if_pos rfl] at hrun
      have h101 : ¬("M103" = "M101") := by decide
      simp only [h101, if_false, if_neg] at hrun
      cases hrun
      simp [HopSkein.addLine]
    · simp only [h103, if_neg, if_false] at hrun
      by_cases hLS : (hopSplit line).headD "" = "(<layerStart>"
      · simp only [hLS, if_pos rfl] at hrun
        have h101 : ¬("(<layerStart>" = "M101") := by decide
        simp only [h101, if_false, if_neg] at hrun
        by_cases hslope : st.minimumSlope = 0
        · simp [hslope] at hrun
        · simp only [hslope, if_neg, if_false] at hrun
          cases hrun
          simp [HopSkein.addLine]
      · simp only [hLS, if_neg, if_false] at hrun
        by_cases hBL : (hopSplit line).headD "" = "(<bridgeLayer>"
        · simp only [hBL, if_pos rfl] at hrun
          have h101 : ¬("(<bridgeLayer>" = "M101") := by decide
          simp only [h101, if_false, if_neg] at hrun
          by_cases hslope : st.minimumSlope = 0
          · simp [hslope] at hrun
          · simp only [hslope, if_neg, if_false] at hrun
            cases hrun
            simp [HopSkein.addLine]
        · simp only [hBL, if_neg, if_false] at hrun
          by_cases h101 : (hopSplit line).headD "" = "M101"
          · simp only [h101, if_pos rfl] at hrun
            cases hrun
            simp [HopSkein.addLine]
          · simp only [h101, if_neg, if_false] at hrun
            cases hrun
            simp [HopSkein.addLine]

/-- Counterexample to claim C6: an empty line processed while the extruder
is active is dropped, not passed through: the parser returns with the
state unchanged and emits no output line at all, so no output line equals
the input line. -/
theorem claim_C6_counterexample :
    HopSkein.parseLine { extruderActive := true } "" =
      some ({ extruderActive := true } : HopSkein) ∧
    ({ extruderActive := true } : HopSkein).output = [] := by
  constructor
  · exact hop_parseLine_empty _
  · rfl

/-- Claim C6 as amended: every nonempty line processed while the extruder
is active and processed without error is passed through unchanged: the
engine appends exactly the input line to the output; empty lines produce
no output. -/
theorem claim_C6 (st st' : HopSkein) (line : String)
    (hA : st.extruderActive = true) (hline : line ≠ "")
    (hrun : HopSkein.parseLine st line = some st') :
    st'.output = st.output ++ [line] :=
  hop_parseLine_passthrough st st' line hline (Or.inl hA) hrun

/-- Witness for claim C6: a travel line processed while active passes
through with no elevation. -/
theorem claim_C6_witness :
    (HopSkein.parseLine { extruderActive := true } "G1 X10 Y0 Z0").map HopSkein.output =
      some ["G1 X10 Y0 Z0"] := by
  have hrun : HopSkein.parseLine { extruderActive := true } "G1 X10 Y0 Z0" =
      some { extruderActive := true, oldLocation := some ⟨10, 0, 0⟩,
             output := ["G1 X10 Y0 Z0"] } := by decide
  have h := claim_C6 _ _ "G1 X10 Y0 Z0" rfl (by decide) hrun
  rw [hrun]
  simp [h]

/-! ### Claim C4: the plain hop while inactive -/

theorem updateFeedrate_decimalPlacesCarried (st : HopSkein) (sl : List String) :
    (st.updateFeedrateFromLine sl).decimalPlacesCarried = st.decimalPlacesCarried := by
  unfold HopSkein.updateFeedrateFromLine
  cases indexOfStartingWithSecond "F" sl <;> rfl

theorem updateFeedrate_layerHopHeight (st : HopSkein) (sl : List String) :
    (st.updateFeedrateFromLine sl).layerHopHeight = st.layerHopHeight := by
  unfold HopSkein.updateFeedrateFromLine
  cases indexOfStartingWithSecond "F" sl <;> rfl

theorem updateFeedrate_layerHopDistance (st : HopSkein) (sl : List String) :
    (st.updateFeedrateFromLine sl).layerHopDistance = st.layerHopDistance := by
  unfold HopSkein.updateFeedrateFromLine
  cases indexOfStartingWithSecond "F" sl <;> rfl

theorem hop_getHopLine_nextTravel (st : HopSkein) (line : String)
    (hA : st.extruderActive = false) (hN : st.isNextTravel = true) :
    st.getHopLine line = some (st.updateFeedrateFromLine (hopSplit line),
      (st.updateFeedrateFromLine (hopSplit line)).getMovementLineWithHop
        (getLocationFromSplitLine st.oldLocation (hopSplit line))) := by
  have hFA : (st.updateFeedrateFromLine (hopSplit line)).extruderActive = false := by
    rw [updateFeedrate_extruderActive]; exact hA
  have hFN : (st.updateFeedrateFromLine (hopSplit line)).isNextTravel = true := by
    rw [updateFeedrate_isNextTravel]; exact hN
  unfold HopSkein.getHopLine
  simp [hFA, hFN, updateFeedrate_oldLocation]

theorem firstWord_ne_empty_line (line : String) (w : String) (hw : w ≠ "")
    (hG : firstWordOf line = w) : line ≠ "" := by
  intro he
  rw [he] at hG
  exact hw (by rw [← hG]; rfl)

/-- Counterexample to claim C4: a travel line processed while inactive
with justDeactivated off is not elevated when the forward scan finds no
further travel: the line is emitted unchanged, and it differs from the
elevated line the claim requires. -/
theorem claim_C4_counterexample :
    HopSkein.parseLine
        { extruderActive := false, lines := ["G1 X10 Y0 Z0"], lineIndex := 0 }
        "G1 X10 Y0 Z0" =
      some { extruderActive := false, lines := ["G1 X10 Y0 Z0"], lineIndex := 0,
             oldLocation := some ⟨10, 0, 0⟩, output := ["G1 X10 Y0 Z0"] } ∧
    "G1 X10 Y0 Z0" ≠
      HopSkein.getMovementLineWithHop
        { extruderActive := false, lines := ["G1 X10 Y0 Z0"], lineIndex := 0 }
        ⟨10, 0, 0⟩ := by
  decide

/-- Claim C4 as amended: a travel line processed while inactive with
justDeactivated off is elevated exactly when the forward scan finds
another travel line; then the engine emits one movement line whose X and Y
are the parsed location's coordinates, whose Z is the parsed Z plus the
layer hop height, and which carries the remembered feedrate word when one
has been seen (the feedrate memory persists across lines until replaced);
the parser also updates the old location and clears justDeactivated. -/
theorem claim_C4 (st : HopSkein) (line : String)
    (hA : st.extruderActive = false) (_hJ : st.justDeactivated = false)
    (hN : HopSkein.isNextTravel st = true) (hG : firstWordOf line = "G1") :
    HopSkein.parseLine st line =
      some { st.updateFeedrateFromLine (hopSplit line) with
              output := st.output ++
                [(st.updateFeedrateFromLine (hopSplit line)).getMovementLineWithHop
                  (getLocationFromSplitLine st.oldLocation (hopSplit line))]
              oldLocation := some (getLocationFromSplitLine st.oldLocation (hopSplit line))
              justDeactivated := false } ∧
    (st.updateFeedrateFromLine (hopSplit line)).getMovementLineWithHop
        (getLocationFromSplitLine st.oldLocation (hopSplit line)) =
      (if (st.updateFeedrateFromLine (hopSplit line)).feedrateString ≠ "" then
        "G1 X" ++ getRoundedToDecimalPlacesString st.decimalPlacesCarried
            (getLocationFromSplitLine st.oldLocation (hopSplit line)).x ++
          " Y" ++ getRoundedToDecimalPlacesString st.decimalPlacesCarried
            (getLocationFromSplitLine st.oldLocation (hopSplit line)).y ++
          " Z" ++ getRoundedToDecimalPlacesString st.decimalPlacesCarried
            (qadd (getLocationFromSplitLine st.oldLocation (hopSplit line)).z
              st.layerHopHeight) ++
          " " ++ (st.updateFeedrateFromLine (hopSplit line)).feedrateString
      else
        "G1 X" ++ getRoundedToDecimalPlacesString st.decimalPlacesCarried
            (getLocationFromSplitLine st.oldLocation (hopSplit line)).x ++
          " Y" ++ getRoundedToDecimalPlacesString st.decimalPlacesCarried
            (getLocationFromSplitLine st.oldLocation (hopSplit line)).y ++
          " Z" ++ getRoundedToDecimalPlacesString st.decimalPlacesCarried
            (qadd (getLocationFromSplitLine st.oldLocation (hopSplit line)).z
              st.layerHopHeight)) := by
  have hne : line ≠ "" := firstWord_ne_empty_line line "G1" (by decide) hG
  have hguard := hop_parseLine_guard_false line hne
  have hG' : (hopSplit line).headD "" = "G1" := hG
  have hHop := hop_getHopLine_nextTravel st line hA hN
  constructor
  · unfold HopSkein.parseLine
    rw [if_neg hguard]
    simp only [hG', if_pos rfl, hHop, Option.map_some]
    have h1 : ¬("G1" = "M103") := by decide
    have h2 : ¬("G1" = "(<layerStart>") := by decide
    have h3 : ¬("G1" = "(<bridgeLayer>") := by decide
    have h4 : ¬("G1" = "M101") := by decide
    simp only [h1, h2, h3, h4, if_false, if_neg]
    simp [HopSkein.addLine, updateFeedrate_oldLocation, updateFeedrate_output]
  · unfold HopSkein.getMovementLineWithHop HopSkein.getRounded
    rw [updateFeedrate_decimalPlacesCarried, updateFeedrate_layerHopHeight]

/-- Witness for claim C4: the inactive travel line G1 X10 Y0 Z0 with an
earlier feedrate word F600 and a later travel line is hopped to Z 0.4 and
carries the feedrate. -/
theorem claim_C4_witness :
    (HopSkein.parseLine
        { extruderActive := false, feedrateString := "F600",
          lines := ["G1 X10 Y0 Z0", "G1 X1 Y1 Z1"], lineIndex := 0 }
        "G1 X10 Y0 Z0").map HopSkein.output = some ["G1 X10.0 Y0.0 Z0.4 F600"] := by
  have h := claim_C4
    { extruderActive := false, feedrateString := "F600",
      lines := ["G1 X10 Y0 Z0", "G1 X1 Y1 Z1"], lineIndex := 0 }
    "G1 X10 Y0 Z0" rfl rfl (by decide) (by decide)
  rw [h.1]
  decide

/-! ### Claim C5: the two-point ramp after deactivation -/

theorem addLine_getMovementLineWithHop (st : HopSkein) (l : String) (v : Vec3) :
    (st.addLine l).getMovementLineWithHop v = st.getMovementLineWithHop v := rfl

theorem hop_getHopLine_ramp (st : HopSkein) (line : String) (P : Vec3)
    (hA : st.extruderActive = false) (hN : st.isNextTravel = false)
    (hJ : st.justDeactivated = true) (hP : st.oldLocation = some P)
    (hd : Vec3.distance (getLocationFromSplitLine (some P) (hopSplit line)) P ≠ 0) :
    st.getHopLine line =
      some ({ st.updateFeedrateFromLine (hopSplit line) with
              output := st.output ++
                [(st.updateFeedrateFromLine (hopSplit line)).getMovementLineWithHop
                    ((P.times (qsub 1 (qmin (mkRat 41666666 100000000)
                        (qdiv st.layerHopDistance
                          (Vec3.distance
                            (getLocationFromSplitLine (some P) (hopSplit line)) P))))).plus
                      ((getLocationFromSplitLine (some P) (hopSplit line)).times
                        (qmin (mkRat 41666666 100000000)
                          (qdiv st.layerHopDistance
                            (Vec3.distance
                              (getLocationFromSplitLine (some P) (hopSplit line)) P))))),
                  (st.updateFeedrateFromLine (hopSplit line)).getMovementLineWithHop
                    ((P.times (qmin (mkRat 41666666 100000000)
                        (qdiv st.layerHopDistance
                          (Vec3.distance
                            (getLocationFromSplitLine (some P) (hopSplit line)) P)))).plus
                      ((getLocationFromSplitLine (some P) (hopSplit line)).times
                        (qsub 1 (qmin (mkRat 41666666 100000000)
                          (qdiv st.layerHopDistance
                            (Vec3.distance
                              (getLocationFromSplitLine (some P) (hopSplit line)) P))))))] },
        line) := by
  have hFA : (st.updateFeedrateFromLine (hopSplit line)).extruderActive = false := by
    rw [updateFeedrate_extruderActive]; exact hA
  have hFN : (st.updateFeedrateFromLine (hopSplit line)).isNextTravel = false := by
    rw [updateFeedrate_isNextTravel]; exact hN
  have hFJ : (st.updateFeedrateFromLine (hopSplit line)).justDeactivated = true := by
    rw [updateFeedrate_justDeactivated]; exact hJ
  have hFP : (st.updateFeedrateFromLine (hopSplit line)).oldLocation = some P := by
    rw [updateFeedrate_oldLocation]; exact hP
  have hFD : (st.updateFeedrateFromLine (hopSplit line)).layerHopDistance =
      st.layerHopDistance := updateFeedrate_layerHopDistance st _
  unfold HopSkein.getHopLine
  simp only [hFA, Bool.false_eq_true, if_false, hFN, hFJ, if_true, hFP, hFD]
  rw [if_neg hd]
  simp [HopSkein.addLine, updateFeedrate_output, addLine_getMovementLineWithHop,
    hFA, hFN, hFJ, hFP, hFD]
  rfl

/-- Counterexample to claim C5: a travel line processed while
justDeactivated is true is not given the two-point ramp when the forward
scan still finds another travel line; a single elevated replacement line
is produced instead, with nothing added to the output. -/
theorem claim_C5_counterexample :
    HopSkein.getHopLine
        { extruderActive := false, justDeactivated := true,
          oldLocation := some ⟨8, 0, 0⟩, layerHopDistance := mkRat 1 2,
          lines := ["G1 X10 Y0 Z0", "G1 X20 Y0 Z0"], lineIndex := 0 }
        "G1 X10 Y0 Z0" =
      some ({ extruderActive := false, justDeactivated := true,
              oldLocation := some ⟨8, 0, 0⟩, layerHopDistance := mkRat 1 2,
              lines := ["G1 X10 Y0 Z0", "G1 X20 Y0 Z0"], lineIndex := 0 },
        "G1 X10.0 Y0.0 Z0.4") ∧
    ({ extruderActive := false, justDeactivated := true,
       oldLocation := some ⟨8, 0, 0⟩, layerHopDistance := mkRat 1 2,
       lines := ["G1 X10 Y0 Z0", "G1 X20 Y0 Z0"], lineIndex := 0 } : HopSkein).output =
      [] := by
  decide

/-- Claim C5 as amended: a travel line to target L processed while
justDeactivated is true, with a known prior location P at nonzero
distance, receives the two-point ramp exactly when the forward scan finds
no further travel line before the next activation or the end of the
stream; then the engine emits the blend of P and L at ratio
alongRatio = min(0.41666666, layerHopDistance / distance) first, the blend
at ratio 1 - alongRatio second, both elevated by the layer hop height,
followed by the original line, and clears justDeactivated. -/
theorem claim_C5 (st : HopSkein) (line : String) (P : Vec3)
    (hA : st.extruderActive = false) (hJ : st.justDeactivated = true)
    (hN : HopSkein.isNextTravel st = false) (hG : firstWordOf line = "G1")
    (hP : st.oldLocation = some P)
    (hd : Vec3.distance (getLocationFromSplitLine (some P) (hopSplit line)) P ≠ 0) :
    HopSkein.parseLine st line =
      some { st.updateFeedrateFromLine (hopSplit line) with
              output := st.output ++
                [(st.updateFeedrateFromLine (hopSplit line)).getMovementLineWithHop
                    ((P.times (qsub 1 (qmin (mkRat 41666666 100000000)
                        (qdiv st.layerHopDistance
                          (Vec3.distance
                            (getLocationFromSplitLine (some P) (hopSplit line)) P))))).plus
                      ((getLocationFromSplitLine (some P) (hopSplit line)).times
                        (qmin (mkRat 41666666 100000000)
                          (qdiv st.layerHopDistance
                            (Vec3.distance
                              (getLocationFromSplitLine (some P) (hopSplit line)) P))))),
                  (st.updateFeedrateFromLine (hopSplit line)).getMovementLineWithHop
                    ((P.times (qmin (mkRat 41666666 100000000)
                        (qdiv st.layerHopDistance
                          (Vec3.distance
                            (getLocationFromSplitLine (some P) (hopSplit line)) P)))).plus
                      ((getLocationFromSplitLine (some P) (hopSplit line)).times
                        (qsub 1 (qmin (mkRat 41666666 100000000)
                          (qdiv st.layerHopDistance
                            (Vec3.distance
                              (getLocationFromSplitLine (some P) (hopSplit line)) P)))))),
                  line]
              oldLocation := some (getLocationFromSplitLine (some P) (hopSplit line))
              justDeactivated := false } := by
  have hne : line ≠ "" := firstWord_ne_empty_line line "G1" (by decide) hG
  have hguard := hop_parseLine_guard_false line hne
  have hG' : (hopSplit line).headD "" = "G1" := hG
  have hHop := hop_getHopLine_ramp st line P hA hN hJ hP hd
  unfold HopSkein.parseLine
  rw [if_neg hguard]
  simp only [hG', if_pos rfl, hHop, Option.map_some]
  have h1 : ¬("G1" = "M103") := by decide
  have h2 : ¬("G1" = "(<layerStart>") := by decide
  have h3 : ¬("G1" = "(<bridgeLayer>") := by decide
  have h4 : ¬("G1" = "M101") := by decide
  simp only [h1, h2, h3, h4, if_false, if_neg]
  simp [HopSkein.addLine, hP, updateFeedrate_oldLocation]

/-- Witness for claim C5: after deactivation, a travel from (8,0,0) to
(10,0,0) at distance 2 with layerHopDistance 0.5 produces blend ratios
0.25 and 0.75: elevated points at X 8.5 and X 9.5, then the original
line. -/
theorem claim_C5_witness :
    (HopSkein.parseLine
        { extruderActive := false, justDeactivated := true,
          oldLocation := some ⟨8, 0, 0⟩, layerHopDistance := mkRat 1 2,
          lines := ["G1 X10 Y0 Z0"], lineIndex := 0 }
        "G1 X10 Y0 Z0").map HopSkein.output =
      some ["G1 X8.5 Y0.0 Z0.4", "G1 X9.5 Y0.0 Z0.4", "G1 X10 Y0 Z0"] ∧
    Vec3.distance
      (getLocationFromSplitLine (some ⟨8, 0, 0⟩) (hopSplit "G1 X10 Y0 Z0")) ⟨8, 0, 0⟩ = 2 ∧
    qmin (mkRat 41666666 100000000) (qdiv (mkRat 1 2) 2) = mkRat 1 4 := by
  have h := claim_C5
    { extruderActive := false, justDeactivated := true,
      oldLocation := some ⟨8, 0, 0⟩, layerHopDistance := mkRat 1 2,
      lines := ["G1 X10 Y0 Z0"], lineIndex := 0 }
    "G1 X10 Y0 Z0" ⟨8, 0, 0⟩ rfl rfl (by decide) (by decide) rfl (by decide)
  refine ⟨?_, by decide, by decide⟩
  rw [h]
  decide

/-! ### Claim C9: texts with no extrusion start marker -/

theorem parseInitializationAux_no_start (prefs : HopPreferences) :
    ∀ (rem : List String) (i : ℕ) (st st' : HopSkein),
      (∀ l ∈ rem, firstWordOf l ≠ "(<extrusionStart>") →
      parseInitializationAux prefs rem i st = some st' →
      st'.output = st.output ++ rem ∧
      st'.lineIndex = (if rem = [] then st.lineIndex else i + rem.length - 1) ∧
      st'.lines = st.lines ∧
      st'.extruderActive = st.extruderActive ∧
      st'.justDeactivated = st.justDeactivated ∧
      st'.oldLocation = st.oldLocation := by
  intro rem
  induction rem with
  | nil =>
    intro i st st' _ hrun
    simp only [parseInitializationAux, Option.some.injEq] at hrun
    subst hrun
    simp
  | cons line rest ih =>
    intro i st st' hno hrun
    have hnoLine : firstWordOf line ≠ "(<extrusionStart>" := hno line (by simp)
    have hnoRest : ∀ l ∈ rest, firstWordOf l ≠ "(<extrusionStart>" :=
      fun l hl => hno l (by simp [hl])
    simp only [parseInitializationAux] at hrun
    by_cases h1 : (hopSplit line).headD "" = "(<extrusionHeight>"
    · simp only [h1, if_true, eq_self_iff_true] at hrun
      cases hw : (hopSplit line)[1]? with
      | none => simp [hw] at hrun
      | some w =>
        simp only [List.get?_eq_getElem?, hw] at hrun
        cases hpf : parseFloat w with
        | none => simp [hpf] at hrun
        | some v =>
          simp only [hpf] at hrun
          obtain ⟨ho, hli, hl, ha, hj, hol⟩ := ih (i + 1) _ st' hnoRest hrun
          refine ⟨?_, ?_, by simpa [HopSkein.addLine] using hl,
            by simpa [HopSkein.addLine] using ha, by simpa [HopSkein.addLine] using hj,
            by simpa [HopSkein.addLine] using hol⟩
          · simp only [HopSkein.addLine] at ho
            simp [ho]
          · rw [hli]
            cases rest with
            | nil => simp [HopSkein.addLine]
            | cons b r =>
              simp only [HopSkein.addLine, List.length_cons]
              split <;> (simp_all; try omega)
    · simp only [h1, if_false] at hrun
      by_cases h2 : (hopSplit line).headD "" = "(<bridgeExtrusionWidthOverSolid>"
      · simp only [h2, if_true, eq_self_iff_true] at hrun
        cases hw : (hopSplit line)[1]? with
        | none => simp [hw] at hrun
        | some w =>
          simp only [List.get?_eq_getElem?, hw] at hrun
          cases hpf : parseFloat w with
          | none => simp [hpf] at hrun
          | some v =>
            simp only [hpf] at hrun
            obtain ⟨ho, hli, hl, ha, hj, hol⟩ := ih (i + 1) _ st' hnoRest hrun
            refine ⟨?_, ?_, by simpa [HopSkein.addLine] using hl,
              by simpa [HopSkein.addLine] using ha, by simpa [HopSkein.addLine] using hj,
              by simpa [HopSkein.addLine] using hol⟩
            · simp only [HopSkein.addLine] at ho
              simp [ho]
            · rw [hli]
              cases rest with
              | nil => simp [HopSkein.addLine]
              | cons b r =>
                simp only [HopSkein.addLine, List.length_cons]
                split <;> (simp_all; try omega)
      · simp only [h2, if_false] at hrun
        by_cases h3 : (hopSplit line).headD "" = "(<decimalPlacesCarried>"
        · simp only [h3, if_true, eq_self_iff_true] at hrun
          cases hw : (hopSplit line)[1]? with
          | none => simp [hw] at hrun
          | some w =>
            simp only [List.get?_eq_getElem?, hw] at hrun
            cases hpf : parseInt w with
            | none => simp [hpf] at hrun
            | some v =>
              simp only [hpf] at hrun
              obtain ⟨ho, hli, hl, ha, hj, hol⟩ := ih (i + 1) _ st' hnoRest hrun
              refine ⟨?_, ?_, by simpa [HopSkein.addLine] using hl,
                by simpa [HopSkein.addLine] using ha, by simpa [HopSkein.addLine] using hj,
                by simpa [HopSkein.addLine] using hol⟩
              · simp only [HopSkein.addLine] at ho
                simp [ho]
              · rw [hli]
                cases rest with
                | nil => simp [HopSkein.addLine]
                | cons b r =>
                  simp only [HopSkein.addLine, List.length_cons]
                  split <;> (simp_all; try omega)
        · simp only [h3, if_false] at hrun
          by_cases h4 : (hopSplit line).headD "" = "(<extrusionStart>"
          · exact absurd h4 hnoLine
          · simp only [h4, if_false] at hrun
            obtain ⟨ho, hli, hl, ha, hj, hol⟩ := ih (i + 1) _ st' hnoRest hrun
            refine ⟨?_, ?_, by simpa [HopSkein.addLine] using hl,
              by simpa [HopSkein.addLine] using ha, by simpa [HopSkein.addLine] using hj,
              by simpa [HopSkein.addLine] using hol⟩
            · simp only [HopSkein.addLine] at ho
              simp [ho]
            · rw [hli]
              cases rest with
              | nil => simp [HopSkein.addLine]
              | cons b r =>
                simp only [HopSkein.addLine, List.length_cons]
                split <;> (simp_all; try omega)

theorem drop_pred_length_eq_getLast (l : List String) (last : String)
    (h : l.getLast? = some last) : l.drop (l.length - 1) = [last] := by
  induction l with
  | nil => cases h
  | cons a rest ih =>
    cases rest with
    | nil =>
      simp only [List.getLast?_singleton, Option.some.injEq] at h
      simp [h]
    | cons b r =>
      have h' : (b :: r).getLast? = some last := by
        rw [List.getLast?_cons_cons] at h
        exact h
      have hr := ih h'
      have hlen : (a :: b :: r).length - 1 = ((b :: r).length - 1) + 1 := by
        simp
      rw [hlen, List.drop_succ_cons, hr]

/-- Counterexample to claim C9: for the text a-newline, whose final split
line is empty, the initialization pass consumes both split lines and the
main pass re-processes the final empty line but drops it, so no line of
the input appears twice in the output. -/
theorem claim_C9_counterexample :
    (HopSkein.parseGcode {} 1 "a\n").map HopSkein.output = some ["a", ""] ∧
    (["a", ""] : List String).count "a" = 1 ∧
    (["a", ""] : List String).count "" = 1 := by
  decide

/-- Claim C9 as amended: for every text with no extrusion-start line that
the hop engine processes without error, the initialization pass consumes
every line (adding each to the output and never emitting the hop
procedure-done marker) and the main pass then re-processes the final split
line; when that final line is nonempty it is emitted a second time, so it
appears once more in the output than in the input, and the marker is
absent from the output whenever it is absent from the input.  A text
ending in a newline has an empty final split line, which the main pass
drops instead of duplicating. -/
theorem claim_C9 (prefs : HopPreferences) (slope : ℚ) (T : String) (st : HopSkein)
    (last : String)
    (hNo : ∀ l ∈ getTextLines T, firstWordOf l ≠ "(<extrusionStart>")
    (hLast : (getTextLines T).getLast? = some last) (hne : last ≠ "")
    (hrun : HopSkein.parseGcode prefs slope T = some st) :
    st.output = getTextLines T ++ [last] ∧
    st.output.count last = (getTextLines T).count last + 1 ∧
    ("(<procedureDone> hop )" ∉ getTextLines T → "(<procedureDone> hop )" ∉ st.output) := by
  have hlnn : getTextLines T ≠ [] := by
    intro h
    rw [h] at hLast
    cases hLast
  have hlen : 1 ≤ (getTextLines T).length := List.length_pos.mpr hlnn
  unfold HopSkein.parseGcode at hrun
  simp only [] at hrun
  cases hinit : parseInitializationAux prefs (getTextLines T) 0
      { lines := getTextLines T, minimumSlope := slope } with
  | none => simp [hinit] at hrun
  | some st1 =>
    simp only [hinit] at hrun
    obtain ⟨ho, hli, hl, ha, hj, _⟩ :=
      parseInitializationAux_no_start prefs (getTextLines T) 0 _ st1 hNo hinit
    rw [if_neg hlnn] at hli
    have hli' : st1.lineIndex = (getTextLines T).length - 1 := by
      rw [hli]
      omega
    have hdrop : (getTextLines T).drop st1.lineIndex = [last] := by
      rw [hli']
      exact drop_pred_length_eq_getLast _ _ hLast
    rw [hdrop] at hrun
    simp only [parseGcodeLoop] at hrun
    cases hpl : HopSkein.parseLine { st1 with lineIndex := st1.lineIndex } last with
    | none => simp [hpl] at hrun
    | some st2 =>
      simp only [hpl] at hrun
      simp only [parseGcodeLoop, Option.some.injEq] at hrun
      subst hrun
      have hcase : ({ st1 with lineIndex := st1.lineIndex } : HopSkein).extruderActive = true ∨
          (({ st1 with lineIndex := st1.lineIndex } : HopSkein).justDeactivated = false ∧
            HopSkein.isNextTravel { st1 with lineIndex := st1.lineIndex } = false) := by
        right
        constructor
        · show st1.justDeactivated = false
          rw [hj]
        · show isNextTravelAux (st1.lines.drop (st1.lineIndex + 1)) = false
          have : st1.lines.drop (st1.lineIndex + 1) = [] := by
            rw [hl]
            show (getTextLines T).drop (st1.lineIndex + 1) = []
            apply List.drop_eq_nil_of_le
            rw [hli']
            omega
          rw [this]
          rfl
      have hout := hop_parseLine_passthrough _ _ last hne hcase hpl
      have hout1 : st2.output = st1.output ++ [last] := hout
      have houtT : st2.output = getTextLines T ++ [last] := by
        rw [hout1, ho]
        simp
      refine ⟨houtT, ?_, ?_⟩
      · rw [houtT, List.count_append]
        simp
      · intro hnm
        rw [houtT]
        have hlastMem : last ∈ getTextLines T := by
          have : last ∈ (getTextLines T).drop st1.lineIndex := by
            rw [hdrop]
            simp
          exact List.drop_subset _ _ this
        simp only [List.mem_append, List.mem_singleton]
        rintro (h | h)
        · exact hnm h
        · rw [h] at hnm
          exact hnm hlastMem

/-- Witness for claim C9: the two-line text a-newline-b has its last line
b emitted twice and never receives the hop marker. -/
theorem claim_C9_witness :
    (HopSkein.parseGcode {} 1 "a\nb").map HopSkein.output =
      some (getTextLines "a\nb" ++ ["b"]) := by
  cases hrun : HopSkein.parseGcode {} 1 "a\nb" with
  | none =>
    have hsome : (HopSkein.parseGcode {} 1 "a\nb").isSome = true := by decide
    rw [hrun] at hsome
    cases hsome
  | some st =>
    have h := claim_C9 {} 1 "a\nb" st "b" (by decide) (by decide) (by decide) hrun
    simp [h.1]

/-! ### Claim C8: numeric truncation of motion lines -/

theorem splitPred_cons_pos (p : Char → Bool) (a : Char) (cs : List Char)
    (h : p a = true) : splitPred p (a :: cs) = [] :: splitPred p cs := by
  simp [splitPred, h]

theorem splitPred_cons_neg (p : Char → Bool) (a : Char) (cs : List Char)
    (h : p a = false) :
    splitPred p (a :: cs) =
      (a :: (splitPred p cs).headD []) :: (splitPred p cs).tail := by
  cases hs : splitPred p cs with
  | nil => exact absurd hs (splitPred_ne_nil p cs)
  | cons w ws => simp [splitPred, h, hs]

theorem splitPred_clean_append (p : Char → Bool) (b : List Char) :
    ∀ m : List Char, m ≠ [] → (∀ x ∈ m, p x = false) →
      splitPred p (m ++ b) =
        (m ++ (splitPred p b).headD []) :: (splitPred p b).tail := by
  intro m
  induction m with
  | nil => intro h _; exact absurd rfl h
  | cons x m ih =>
    intro _ hall
    have hx : p x = false := hall x (by simp)
    cases m with
    | nil =>
      rw [List.singleton_append, splitPred_cons_neg p x b hx]
      simp
    | cons y m' =>
      have hm := ih (by simp) (fun c hc => hall c (by simp [List.mem_cons] at hc ⊢; tauto))
      rw [List.cons_append, splitPred_cons_neg p x ((y :: m') ++ b) hx, hm]
      simp

theorem splitPred_replace_mid (p : Char → Bool) (m m' b : List Char)
    (hm : m ≠ []) (hm' : m' ≠ []) (hms : ∀ x ∈ m, p x = false)
    (hms' : ∀ x ∈ m', p x = false) :
    ∀ a : List Char, ∃ pre suf : _,
      splitPred p (a ++ m ++ b) =
        pre ++ (suf ++ m ++ (splitPred p b).headD []) :: (splitPred p b).tail ∧
      splitPred p (a ++ m' ++ b) =
        pre ++ (suf ++ m' ++ (splitPred p b).headD []) :: (splitPred p b).tail := by
  intro a
  induction a with
  | nil =>
    refine ⟨[], [], ?_, ?_⟩
    · rw [List.nil_append, splitPred_clean_append p b m hm hms]
      simp
    · rw [List.nil_append, splitPred_clean_append p b m' hm' hms']
      simp
  | cons x a' ih =>
    obtain ⟨pre, suf, h1, h2⟩ := ih
    by_cases hx : p x = true
    · refine ⟨[] :: pre, suf, ?_, ?_⟩
      · rw [List.cons_append, List.cons_append, splitPred_cons_pos p x _ hx, h1]
        simp
      · rw [List.cons_append, List.cons_append, splitPred_cons_pos p x _ hx, h2]
        simp
    · have hx' : p x = false := by
        cases hpx : p x
        · rfl
        · exact absurd hpx hx
      cases pre with
      | nil =>
        refine ⟨[], x :: suf, ?_, ?_⟩
        · rw [List.cons_append, List.cons_append, splitPred_cons_neg p x _ hx', h1]
          simp
        · rw [List.cons_append, List.cons_append, splitPred_cons_neg p x _ hx', h2]
          simp
      | cons p0 pre' =>
        refine ⟨(x :: p0) :: pre', suf, ?_, ?_⟩
        · rw [List.cons_append, List.cons_append, splitPred_cons_neg p x _ hx', h1]
          simp
        · rw [List.cons_append, List.cons_append, splitPred_cons_neg p x _ hx', h2]
          simp

theorem isPySpace_digit_false (c : Char) (h : c.isDigit = true) : isPySpace c = false := by
  cases hs : isPySpace c
  · rfl
  · exfalso
    have hp : c = ' ' ∨ c = '\t' ∨ c = '\n' ∨ c = '\r' ∨ c = '\x0b' ∨ c = '\x0c' := by
      simpa [isPySpace] using hs
    rcases hp with h1 | h1 | h1 | h1 | h1 | h1 <;> (subst h1; simp at h)

theorem pyFindIdx_spec {α : Type} (p : α → Bool) (d : α) :
    ∀ (l : List α) (i : ℕ), pyFindIdx p l = some i →
      i < l.length ∧ p (l.getD i d) = true ∧ ∀ x ∈ l.take i, p x = false := by
  intro l
  induction l with
  | nil => intro i h; cases h
  | cons a rest ih =>
    intro i h
    by_cases ha : p a = true
    · simp only [pyFindIdx, ha, if_true, Option.some.injEq] at h
      subst h
      exact ⟨by simp, by simpa using ha, by simp⟩
    · have ha' : p a = false := by
        cases hpa : p a
        · rfl
        · exact absurd hpa ha
      simp only [pyFindIdx, ha', Bool.false_eq_true, if_false, Option.map_eq_some'] at h
      obtain ⟨j, hj, hij⟩ := h
      obtain ⟨h1, h2, h3⟩ := ih j hj
      subst hij
      refine ⟨by simpa using h1, by simpa using h2, ?_⟩
      intro x hx
      rcases List.mem_cons.mp (by simpa using hx) with hx1 | hx1
      · rw [hx1]; exact ha'
      · exact h3 x hx1

theorem pyFindIdx_none {α : Type} (p : α → Bool) :
    ∀ l : List α, pyFindIdx p l = none → ∀ x ∈ l, p x = false := by
  intro l
  induction l with
  | nil => intro _ x hx; cases hx
  | cons a rest ih =>
    intro h x hx
    by_cases ha : p a = true
    · simp [pyFindIdx, ha] at h
    · have ha' : p a = false := by
        cases hpa : p a
        · rfl
        · exact absurd hpa ha
      simp only [pyFindIdx, ha', Bool.false_eq_true, if_false, Option.map_eq_none'] at h
      rcases List.mem_cons.mp hx with hx1 | hx1
      · rw [hx1]; exact ha'
      · exact ih h x hx1

theorem allDigits_mem (ds : List Char) (h : allDigits ds = true) :
    ∀ x ∈ ds, x.isDigit = true := by
  intro x hx
  unfold allDigits at h
  rw [Bool.and_eq_true] at h
  exact List.all_eq_true.mp h.2 x hx

theorem parseMantissa_chars (cs : List Char) (q : ℚ) (h : parseMantissa cs = some q) :
    ∀ x ∈ cs, x.isDigit = true ∨ x = '.' := by
  intro x hx
  have hsplit : cs = cs.takeWhile Char.isDigit ++ cs.dropWhile Char.isDigit :=
    (List.takeWhile_append_dropWhile Char.isDigit cs).symm
  by_cases hxt : x ∈ cs.takeWhile Char.isDigit
  · exact Or.inl (List.mem_takeWhile_imp hxt)
  · have hxd : x ∈ cs.dropWhile Char.isDigit := by
      rcases List.mem_append.mp (hsplit ▸ hx) with h1 | h1
      · exact absurd h1 hxt
      · exact h1
    simp only [parseMantissa] at h
    split at h
    · rename_i heq
      rw [heq] at hxd
      cases hxd
    · rename_i frac heq
      rw [heq] at hxd
      split at h
      · rename_i hcond
        rcases List.mem_cons.mp hxd with hx1 | hx1
        · exact Or.inr hx1
        · exact Or.inl (List.all_eq_true.mp hcond.1 x hx1)
      · cases h
    · cases h

theorem parseExponent_chars (cs : List Char) (e : ℤ) (h : parseExponent cs = some e) :
    ∀ x ∈ cs, x.isDigit = true ∨ x = '+' ∨ x = '-' := by
  intro x hx
  unfold parseExponent at h
  split at h
  · rename_i rest
    split at h
    · rename_i hall
      rcases List.mem_cons.mp hx with hx1 | hx1
      · exact Or.inr (Or.inl hx1)
      · exact Or.inl (allDigits_mem rest hall x hx1)
    · cases h
  · rename_i rest
    split at h
    · rename_i hall
      rcases List.mem_cons.mp hx with hx1 | hx1
      · exact Or.inr (Or.inr hx1)
      · exact Or.inl (allDigits_mem rest hall x hx1)
    · cases h
  · split at h
    · rename_i hall
      exact Or.inl (allDigits_mem cs hall x hx)
    · cases h

theorem parseFloatBody_chars (body : List Char) (q : ℚ)
    (h : parseFloatBody body = some q) :
    ∀ x ∈ body, x.isDigit = true ∨ x = '.' ∨ x = '+' ∨ x = '-' ∨ x = 'e' ∨ x = 'E' := by
  intro x hx
  unfold parseFloatBody at h
  cases hfind : pyFindIdx (fun c => c = 'e' ∨ c = 'E') body with
  | none =>
    rw [hfind] at h
    rcases parseMantissa_chars body q h x hx with h1 | h1
    · exact Or.inl h1
    · exact Or.inr (Or.inl h1)
  | some i =>
    simp only [hfind] at h
    cases hm : parseMantissa (body.take i) with
    | none => rw [hm] at h; cases h
    | some m =>
      rw [hm] at h
      cases he : parseExponent (body.drop (i + 1)) with
      | none => rw [he] at h; cases h
      | some e =>
        obtain ⟨hilen, hichar, _⟩ := pyFindIdx_spec _ 'e' body i hfind
        have hdecomp : body = body.take i ++ body.getD i 'e' :: body.drop (i + 1) := by
          rw [List.getD_eq_getElem body 'e' hilen]
          rw [← List.drop_eq_getElem_cons hilen]
          exact (List.take_append_drop i body).symm
        rw [hdecomp] at hx
        rcases List.mem_append.mp hx with h1 | h1
        · rcases parseMantissa_chars _ m hm x h1 with h2 | h2
          · exact Or.inl h2
          · exact Or.inr (Or.inl h2)
        · rcases List.mem_cons.mp h1 with h2 | h2
          · have : (body.getD i 'e' = 'e' ∨ body.getD i 'e' = 'E') := by
              simpa using hichar
            rcases this with h3 | h3
            · exact Or.inr (Or.inr (Or.inr (Or.inr (Or.inl (h2.trans h3)))))
            · exact Or.inr (Or.inr (Or.inr (Or.inr (Or.inr (h2.trans h3)))))
          · rcases parseExponent_chars _ e he x h2 with h3 | h3 | h3
            · exact Or.inl h3
            · exact Or.inr (Or.inr (Or.inl h3))
            · exact Or.inr (Or.inr (Or.inr (Or.inl h3)))

theorem float_char_not_space (x : Char)
    (h : x.isDigit = true ∨ x = '.' ∨ x = '+' ∨ x = '-' ∨ x = 'e' ∨ x = 'E') :
    isPySpace x = false := by
  rcases h with h1 | h1 | h1 | h1 | h1 | h1
  · exact isPySpace_digit_false x h1
  all_goals subst h1
  all_goals decide

theorem parseFloat_no_space (s : String) (q : ℚ) (h : parseFloat s = some q) :
    ∀ x ∈ s.data, isPySpace x = false := by
  intro x hx
  unfold parseFloat at h
  split at h
  · rename_i rest heq
    rw [show s.toList = s.data from rfl] at heq
    rw [heq] at hx
    rcases List.mem_cons.mp hx with h1 | h1
    · subst h1; decide
    · exact float_char_not_space x (parseFloatBody_chars rest q h x h1)
  · rename_i rest heq
    rw [show s.toList = s.data from rfl] at heq
    rw [heq] at hx
    rw [Option.map_eq_some'] at h
    obtain ⟨v, hv, _⟩ := h
    rcases List.mem_cons.mp hx with h1 | h1
    · subst h1; decide
    · exact float_char_not_space x (parseFloatBody_chars rest v hv x h1)
  · exact float_char_not_space x (parseFloatBody_chars _ q h x hx)

theorem digitChar10_not_space : ∀ n, n < 10 → isPySpace (digitChar10 n) = false := by
  decide

theorem natDigitsAux_no_space :
    ∀ (fuel n : ℕ) (acc : List Char), (∀ x ∈ acc, isPySpace x = false) →
      ∀ x ∈ natDigitsAux fuel n acc, isPySpace x = false := by
  intro fuel
  induction fuel with
  | zero =>
    intro n acc hacc x hx
    simp only [natDigitsAux] at hx
    rcases List.mem_cons.mp hx with h1 | h1
    · rw [h1]
      exact digitChar10_not_space (n % 10) (Nat.mod_lt n (by norm_num))
    · exact hacc x h1
  | succ fuel ih =>
    intro n acc hacc x hx
    simp only [natDigitsAux] at hx
    by_cases hn : n < 10
    · rw [if_pos hn] at hx
      rcases List.mem_cons.mp hx with h1 | h1
      · rw [h1]
        exact digitChar10_not_space n hn
      · exact hacc x h1
    · rw [if_neg hn] at hx
      refine ih (n / 10) _ ?_ x hx
      intro y hy
      rcases List.mem_cons.mp hy with h1 | h1
      · rw [h1]
        exact digitChar10_not_space (n % 10) (Nat.mod_lt n (by norm_num))
      · exact hacc y h1

theorem natDigits_no_space (n : ℕ) : ∀ x ∈ natDigits n, isPySpace x = false :=
  natDigitsAux_no_space n n [] (by simp)

theorem padLeftZeros_no_space (k : ℕ) (ds : List Char)
    (h : ∀ x ∈ ds, isPySpace x = false) :
    ∀ x ∈ padLeftZeros k ds, isPySpace x = false := by
  intro x hx
  rcases List.mem_append.mp hx with h1 | h1
  · rw [List.eq_of_mem_replicate h1]
    decide
  · exact h x h1

theorem dropTrailingZerosKeepOne_no_space (ds : List Char)
    (h : ∀ x ∈ ds, isPySpace x = false) :
    ∀ x ∈ dropTrailingZerosKeepOne ds, isPySpace x = false := by
  intro x hx
  unfold dropTrailingZerosKeepOne at hx
  split at hx
  · rcases List.mem_singleton.mp hx with h1
    rw [h1]
    decide
  · have hsub : x ∈ ds := by
      rw [← List.mem_reverse] at hx ⊢
      rw [List.reverse_reverse] at hx
      exact (List.dropWhile_sublist _).mem hx
    exact h x hsub

theorem rounded_no_space (places : ℤ) (q : ℚ) :
    ∀ x ∈ (getRoundedToDecimalPlacesString places q).data, isPySpace x = false := by
  intro x hx
  unfold getRoundedToDecimalPlacesString at hx
  simp only [String.data_append] at hx
  rcases List.mem_append.mp hx with hx1 | hx1
  · rcases List.mem_append.mp hx1 with hx2 | hx2
    · rcases List.mem_append.mp hx2 with hx3 | hx3
      · split at hx3
        · rcases List.mem_singleton.mp hx3 with h1
          rw [h1]
          decide
        · cases hx3
      · exact natDigits_no_space _ x hx3
    · rcases List.mem_singleton.mp hx2 with h1
      rw [h1]
      decide
  · exact dropTrailingZerosKeepOne_no_space _
      (padLeftZeros_no_space _ _ (natDigits_no_space _)) x hx1

theorem natDigitsAux_ne_nil : ∀ (fuel n : ℕ) (acc : List Char),
    natDigitsAux fuel n acc ≠ [] := by
  intro fuel
  induction fuel with
  | zero => intro n acc; simp [natDigitsAux]
  | succ fuel ih =>
    intro n acc
    simp only [natDigitsAux]
    by_cases hn : n < 10
    · simp [hn]
    · rw [if_neg hn]
      exact ih (n / 10) _

theorem rounded_ne_nil (places : ℤ) (q : ℚ) :
    (getRoundedToDecimalPlacesString places q).data ≠ [] := by
  unfold getRoundedToDecimalPlacesString
  simp only [String.data_append]
  intro h
  rcases List.append_eq_nil.mp h with ⟨h1, _⟩
  rcases List.append_eq_nil.mp h1 with ⟨_, h3⟩
  cases h3

theorem tokens_length_replace_mid (p : Char → Bool) (a m m' b : List Char)
    (hm : m ≠ []) (hm' : m' ≠ []) (hms : ∀ x ∈ m, p x = false)
    (hms' : ∀ x ∈ m', p x = false) :
    ((splitPred p (a ++ m ++ b)).filter (fun w => w ≠ [])).length =
      ((splitPred p (a ++ m' ++ b)).filter (fun w => w ≠ [])).length := by
  obtain ⟨pre, suf, h1, h2⟩ := splitPred_replace_mid p m m' b hm hm' hms hms' a
  rw [h1, h2]
  have hmid1 : suf ++ m ++ (splitPred p b).headD [] ≠ [] := by
    intro hh
    rcases List.append_eq_nil.mp hh with ⟨hh1, _⟩
    rcases List.append_eq_nil.mp hh1 with ⟨_, hh2⟩
    exact hm hh2
  have hmid2 : suf ++ m' ++ (splitPred p b).headD [] ≠ [] := by
    intro hh
    rcases List.append_eq_nil.mp hh with ⟨hh1, _⟩
    rcases List.append_eq_nil.mp hh1 with ⟨_, hh2⟩
    exact hm' hh2
  simp only [List.filter_append, List.filter_cons]
  simp only [decide_not, List.append_eq_nil, Bool.not_eq_eq_eq_not, Bool.not_true,
    decide_eq_false_iff_not, not_and, ne_eq, List.headD_eq_head?_getD]
  have hb1 : ¬suf = [] ∨ ¬m = [] ∨ ¬(splitPred p b).head?.getD [] = [] :=
    Or.inr (Or.inl hm)
  have hb2 : ¬suf = [] ∨ ¬m' = [] ∨ ¬(splitPred p b).head?.getD [] = [] :=
    Or.inr (Or.inl hm')
  simp [hb1, hb2]

theorem export_truncation_token_count (st : ExportSkein) (c : Char) (line out : String)
    (h : ExportSkein.getLineWithTruncatedNumber st c line = some out) :
    (pySplitWS out).length = (pySplitWS line).length := by
  unfold ExportSkein.getLineWithTruncatedNumber at h
  simp only [String.toList] at h
  cases ht : truncationIndices c line.data with
  | none =>
    simp only [ht, Option.some.injEq] at h
    rw [h]
  | some pr =>
    obtain ⟨i, e⟩ := pr
    simp only [ht] at h
    by_cases hns : String.mk ((line.data.take e).drop (i + 1)) = ""
    · rw [if_pos hns, Option.some.injEq] at h
      rw [h]
    · rw [if_neg hns] at h
      cases hpf : parseFloat (String.mk ((line.data.take e).drop (i + 1))) with
      | none => rw [hpf] at h; cases h
      | some q =>
        simp only [hpf, Option.some.injEq] at h
        have hmnn : (line.data.take e).drop (i + 1) ≠ [] := by
          intro hh
          exact hns (by rw [hh])
        have hmidns : ∀ x ∈ (line.data.take e).drop (i + 1), isPySpace x = false := by
          intro x hx
          exact parseFloat_no_space _ q hpf x hx
        have hm'ns := rounded_no_space st.decimalPlacesExported q
        have hm'nn := rounded_ne_nil st.decimalPlacesExported q
        unfold truncationIndices at ht
        cases hfind : pyFindIdx (fun a => a = c) line.data with
        | none => simp [hfind] at ht
        | some i0 =>
          simp only [hfind, Option.some.injEq, Prod.mk.injEq] at ht
          obtain ⟨hti, hte⟩ := ht
          rw [hti] at hfind
          obtain ⟨hilen, _, _⟩ := pyFindIdx_spec _ c line.data i hfind
          have hi1e : i + 1 ≤ e := by
            by_contra hlt
            push_neg at hlt
            apply hmnn
            apply List.drop_eq_nil_of_le
            have hle : (line.data.take e).length ≤ e := by
              simp [List.length_take]
            omega
          have htt : (line.data.take e).take (i + 1) = line.data.take (i + 1) := by
            rw [List.take_take]
            congr 1
            omega
          have hdecomp : line.data =
              line.data.take (i + 1) ++ (line.data.take e).drop (i + 1) ++
                line.data.drop e := by
            conv_lhs => rw [← List.take_append_drop e line.data]
            rw [← htt]
            conv_rhs => rw [List.take_append_drop]
          have hout : out.data =
              line.data.take (i + 1) ++
                (getRoundedToDecimalPlacesString st.decimalPlacesExported q).data ++
                line.data.drop e := by
            rw [← h]
            simp [String.data_append]
          unfold pySplitWS
          simp only [String.toList, List.length_map]
          rw [hout]
          conv_rhs => rw [hdecomp]
          exact tokens_length_replace_mid isPySpace (line.data.take (i + 1))
            (getRoundedToDecimalPlacesString st.decimalPlacesExported q).data
            ((line.data.take e).drop (i + 1)) (line.data.drop e)
            hm'nn hmnn hm'ns hmidns

/-- C8: export truncation never changes a line's whitespace token count:
whenever getLineWithTruncatedNumber succeeds, the output splits into as
many words as the input; and the spec's concrete scenario holds: parsing
`G1 X1.23456 Y-0.00001 Z0.4 F600` with decimalPlacesExported = 2 outputs
`G1 X1.23 Y-0.0 Z0.4 F600`. -/
theorem claim_C8 (st : ExportSkein) (c : Char) (line out : String)
    (h : ExportSkein.getLineWithTruncatedNumber st c line = some out) :
    (pySplitWS out).length = (pySplitWS line).length ∧
    ExportSkein.parseLine {} {} "G1 X1.23456 Y-0.00001 Z0.4 F600" =
      some { decimalPlacesExported := 2, output := ["G1 X1.23 Y-0.0 Z0.4 F600"] } := by
  refine ⟨export_truncation_token_count st c line out h, ?_⟩
  decide

/-- Witness for C8 at a concrete truncation: the X number of
`G1 X1.23456 Y2` truncates with the token count preserved. -/
theorem claim_C8_witness :
    ExportSkein.getLineWithTruncatedNumber {} 'X' "G1 X1.23456 Y2" =
        some "G1 X1.23 Y2" ∧
      (pySplitWS "G1 X1.23 Y2").length = (pySplitWS "G1 X1.23456 Y2").length :=
  ⟨by decide, (claim_C8 {} 'X' "G1 X1.23456 Y2" "G1 X1.23 Y2" (by decide)).1⟩
